import Mathlib

/-!
Verification of the multi-item tree composition engine of
`src/multi-items/multi-renderer.jsx`.

The engine orchestrates a shape-described tree of content/hint/tags leaves:
it builds a cached tree of renderer cells, exposes cross-branch widget
discovery, and aggregates scores and serialized state across the leaves.

Shallow embedding conventions:
  * JavaScript `null`/`undefined` values are `Option.none`; a JS truthiness
    test `if (x)` on such a slot is `Option.isSome` (the state payloads we
    store in blobs are taken from the always-truthy fragment).
  * JS object identity is modelled by a numeric `id` allocated from a
    counter threaded through the tree build, mirroring that each call to
    `_makeContentRendererData` / `_makeHintRendererData` allocates a fresh
    object.
  * Code that can throw returns `Except String`.
  * External collaborators (the leaf `Renderer` capability surface,
    `Util.keScoreFromPerseusScore`, `Util.combineScores`) are opaque to the
    engine and appear as parameters.
`trees.js` (the tree/shape/mapper abstraction), `items.js` (`itemToTree`)
and the `hubble` lens accessor are not part of the reviewed sources; they
are modelled from the spec where indicated.
-/

namespace Perseus

/-- The generic tree type of the multi-item abstraction: a node is one of
Content, Hint, Tags, or an array of subtrees (`tree-types.js`). -/
inductive PTree (C H T : Type) : Type where
  | content : C → PTree C H T
  | hint : H → PTree C H T
  | tags : T → PTree C H T
  | arr : List (PTree C H T) → PTree C H T

/-- Shapes describing tree topology (`shape-types.js`): a content leaf, a
hint leaf, a tags leaf, or an array of a uniform element shape. -/
inductive Shape : Type where
  | content : Shape
  | hint : Shape
  | tags : Shape
  | arrayOf (elementShape : Shape) : Shape
deriving Repr, DecidableEq

/-- Structural congruence of a tree with a shape: the topology check the
mapper performs while walking tree and shape in lock-step.
Modelled from the spec: `trees.js` is not among the reviewed sources; §4.1
specifies that the walk fails with a ShapeMismatch error when the item
topology disagrees with the shape at any point. -/
def agreesB {C H T : Type} : Perseus.PTree C H T → Shape → Bool
  | .content _, .content => true
  | .hint _, .hint => true
  | .tags _, .tags => true
  | .arr ts, .arrayOf es => go ts es
  | _, _ => false
where
  go : List (Perseus.PTree C H T) → Shape → Bool
    | [], _ => true
    | t :: ts, es => agreesB t es && go ts es

/-- A path: the sequence of array indices leading to a node, used as the
addressing scheme for the lens accessor and for routing serialized state. -/
abbrev Path : Type := List Nat

/-- Modelled from the spec: `trees.js` (`buildMapper().mapTree`) is not among
the reviewed sources.  §4.1: walk tree and shape in lock-step, apply the
matching transform at each leaf (content/hint/tags), recurse into arrays
(extending the path with the child index), and post-process each array's
mapped children with the optional `arrayMapper` before returning it; fail
with a ShapeMismatch error if the topologies disagree.  The transforms are
JS closures over mutable engine locals, so each takes and returns an
explicit state `σ`; `multi-renderer.jsx` passes the array shape itself to
the array mapper (its `_annotateRendererArray` reads `shape.elementShape`). -/
def mapTree {C H T C' H' T' σ : Type}
    (cm : C → Path → σ → C' × σ)
    (hm : H → Path → σ → H' × σ)
    (tm : T → Path → σ → T' × σ)
    (am : Option (List (PTree C' H' T') → List (PTree C H T) → Shape → Path →
      σ → List (PTree C' H' T') × σ)) :
    PTree C H T → Shape → Path → σ → Except String (PTree C' H' T' × σ)
  | .content c, .content, p, s => let r := cm c p s; .ok (.content r.1, r.2)
  | .hint h, .hint, p, s => let r := hm h p s; .ok (.hint r.1, r.2)
  | .tags t, .tags, p, s => let r := tm t p s; .ok (.tags r.1, r.2)
  | .arr ts, .arrayOf es, p, s =>
      match goList ts es p 0 s with
      | .error e => .error e
      | .ok (ts', s') =>
          match am with
          | none => .ok (.arr ts', s')
          | some f =>
              let r := f ts' ts (Shape.arrayOf es) p s'
              .ok (.arr r.1, r.2)
  | _, _, _, _ => .error "ShapeMismatch"
where
  goList : List (PTree C H T) → Shape → Path → Nat → σ →
      Except String (List (PTree C' H' T') × σ)
    | [], _, _, _, s => .ok ([], s)
    | t :: ts, es, p, i, s =>
        match mapTree cm hm tm am t es (p ++ [i]) s with
        | .error e => .error e
        | .ok (t', s') =>
            match goList ts es p (i + 1) s' with
            | .error e => .error e
            | .ok (ts', s'') => .ok (t' :: ts', s'')

/-- Pure model of the mapper's traversal on a shape-congruent tree, with no
array mapper: the same pre-order state-threaded walk, but total and driven
by the tree alone.  Used to characterise `mapTree` on agreeing inputs. -/
def leafMapS {C H T C' H' T' σ : Type}
    (cm : C → Path → σ → C' × σ)
    (hm : H → Path → σ → H' × σ)
    (tm : T → Path → σ → T' × σ) :
    PTree C H T → Path → σ → PTree C' H' T' × σ
  | .content c, p, s => let r := cm c p s; (.content r.1, r.2)
  | .hint h, p, s => let r := hm h p s; (.hint r.1, r.2)
  | .tags t, p, s => let r := tm t p s; (.tags r.1, r.2)
  | .arr ts, p, s => let r := goList ts p 0 s; (.arr r.1, r.2)
where
  goList : List (PTree C H T) → Path → Nat → σ → List (PTree C' H' T') × σ
    | [], _, _, s => ([], s)
    | t :: ts, p, i, s =>
        let r := leafMapS cm hm tm t (p ++ [i]) s
        let r' := goList ts p (i + 1) r.2
        (r.1 :: r'.1, r'.2)

/-- Induction over `PTree` with a membership hypothesis for array children. -/
theorem PTree.inductionOn {C H T : Type} {P : PTree C H T → Prop}
    (hc : ∀ c, P (.content c)) (hh : ∀ h, P (.hint h)) (ht : ∀ t, P (.tags t))
    (ha : ∀ ts, (∀ t ∈ ts, P t) → P (.arr ts)) : ∀ t, P t
  | .content c => hc c
  | .hint h => hh h
  | .tags t => ht t
  | .arr ts => ha ts (goList ts)
where
  goList : ∀ ts : List (PTree C H T), ∀ t ∈ ts, P t
    | t :: ts, u, hu => by
        rcases List.mem_cons.mp hu with h | h
        · exact h ▸ PTree.inductionOn hc hh ht ha t
        · exact goList ts u h

/-- On a shape-congruent tree, the fallible lock-step mapper (with no array
mapper) succeeds and agrees with the pure traversal. -/
theorem mapTree_eq_leafMapS {C H T C' H' T' σ : Type}
    (cm : C → Path → σ → C' × σ) (hm : H → Path → σ → H' × σ)
    (tm : T → Path → σ → T' × σ) :
    ∀ (t : PTree C H T) (sh : Shape), agreesB t sh = true →
      ∀ (p : Path) (s : σ),
        mapTree cm hm tm none t sh p s = .ok (leafMapS cm hm tm t p s) := by
  intro t
  induction t using PTree.inductionOn with
  | hc c => intro sh hag p s; cases sh <;> simp_all [agreesB, mapTree, leafMapS]
  | hh h => intro sh hag p s; cases sh <;> simp_all [agreesB, mapTree, leafMapS]
  | ht t => intro sh hag p s; cases sh <;> simp_all [agreesB, mapTree, leafMapS]
  | ha ts ih =>
      intro sh hag p s
      cases sh with
      | content => simp [agreesB] at hag
      | hint => simp [agreesB] at hag
      | tags => simp [agreesB] at hag
      | arrayOf es =>
          have hgo : ∀ (ts' : List (PTree C H T)), (∀ t ∈ ts', agreesB t es = true) →
              (∀ t ∈ ts', ∀ sh, agreesB t sh = true → ∀ p s,
                mapTree cm hm tm none t sh p s = .ok (leafMapS cm hm tm t p s)) →
              ∀ (i : Nat) (s : σ),
                mapTree.goList cm hm tm none ts' es p i s =
                  .ok (leafMapS.goList cm hm tm ts' p i s) := by
            intro ts' hags ihs
            induction ts' with
            | nil => intro i s; simp [mapTree.goList, leafMapS.goList]
            | cons t ts'' ih'' =>
                intro i s
                rw [mapTree.goList, leafMapS.goList,
                  ihs t (List.mem_cons_self t ts'') es
                    (hags t (List.mem_cons_self t ts'')) (p ++ [i]) s]
                have hrec := ih'' (fun u hu => hags u (List.mem_cons_of_mem t hu))
                  (fun u hu => ihs u (List.mem_cons_of_mem t hu))
                simp [hrec (i + 1)]
          have hgo2 : ∀ ts'' : List (PTree C H T), agreesB.go ts'' es = true →
              ∀ t ∈ ts'', agreesB t es = true := by
            intro ts''
            induction ts'' with
            | nil => intro _ t ht; simp at ht
            | cons t ts3 ih3 =>
                intro hgoh u hu
                rw [agreesB.go, Bool.and_eq_true] at hgoh
                rcases List.mem_cons.mp hu with h | h
                · exact h ▸ hgoh.1
                · exact ih3 hgoh.2 u h
          have hags := hgo2 ts (by simpa [agreesB] using hag)
          rw [mapTree, hgo ts hags ih 0 s, leafMapS]

/-- The pre-order list of leaf payloads (content or hint) with their paths:
the order in which the mapper visits the leaves. -/
def leavesP {C H T : Type} : PTree C H T → Path → List ((C ⊕ H) × Path)
  | .content c, p => [(Sum.inl c, p)]
  | .hint h, p => [(Sum.inr h, p)]
  | .tags _, _ => []
  | .arr ts, p => go ts p 0
where
  go : List (PTree C H T) → Path → Nat → List ((C ⊕ H) × Path)
    | [], _, _ => []
    | t :: ts, p, i => leavesP t (p ++ [i]) ++ go ts p (i + 1)

/-- A leaf transform whose output component ignores the threaded state and
whose state update is separated out; all the engine's leaf closures have
this form. -/
def splitMapper {A A' σ : Type} (f : A → Path → A') (u : A → Path → σ → σ) :
    A → Path → σ → A' × σ :=
  fun a p s => (f a p, u a p s)

/-- The state effect of one leaf visit, as a fold step over `leavesP`. -/
def splitStep {C H σ : Type} (u : C → Path → σ → σ) (v : H → Path → σ → σ) :
    σ → ((C ⊕ H) × Path) → σ
  | s, (Sum.inl c, p) => u c p s
  | s, (Sum.inr h, p) => v h p s

/-- The stateless projection of the traversal: map each leaf through its
output function, preserving structure and position exactly. -/
def pureMap {C H T C' H' T' : Type} (f : C → Path → C') (g : H → Path → H')
    (q : T → Path → T') : PTree C H T → Path → PTree C' H' T'
  | .content c, p => .content (f c p)
  | .hint h, p => .hint (g h p)
  | .tags t, p => .tags (q t p)
  | .arr ts, p => .arr (go ts p 0)
where
  go : List (PTree C H T) → Path → Nat → List (PTree C' H' T')
    | [], _, _ => []
    | t :: ts, p, i => pureMap f g q t (p ++ [i]) :: go ts p (i + 1)

/-- Decomposition of the traversal for split transforms (with a
state-preserving tags transform): the output tree is the pure map and the
final state is a left fold of the per-leaf state updates over the pre-order
leaf list. -/
theorem leafMapS_split {C H T C' H' T' σ : Type} (f : C → Path → C')
    (u : C → Path → σ → σ) (g : H → Path → H') (v : H → Path → σ → σ)
    (q : T → Path → T') :
    ∀ (t : PTree C H T) (p : Path) (s : σ),
      leafMapS (splitMapper f u) (splitMapper g v)
          (splitMapper q (fun _ _ s => s)) t p s =
        (pureMap f g q t p, (leavesP t p).foldl (splitStep u v) s) := by
  intro t
  induction t using PTree.inductionOn with
  | hc c => intro p s; simp [leafMapS, pureMap, leavesP, splitMapper, splitStep]
  | hh h => intro p s; simp [leafMapS, pureMap, leavesP, splitMapper, splitStep]
  | ht t => intro p s; simp [leafMapS, pureMap, leavesP, splitMapper, splitStep]
  | ha ts ih =>
      intro p s
      have hgo : ∀ (ts' : List (PTree C H T)),
          (∀ t ∈ ts', ∀ p s, leafMapS (splitMapper f u) (splitMapper g v)
            (splitMapper q (fun _ _ s => s)) t p s =
            (pureMap f g q t p, (leavesP t p).foldl (splitStep u v) s)) →
          ∀ (i : Nat) (s : σ),
            leafMapS.goList (splitMapper f u) (splitMapper g v)
                (splitMapper q (fun _ _ s => s)) ts' p i s =
              (pureMap.go f g q ts' p i,
                (leavesP.go ts' p i).foldl (splitStep u v) s) := by
        intro ts' ihs
        induction ts' with
        | nil => intro i s; simp [leafMapS.goList, pureMap.go, leavesP.go]
        | cons t ts'' ih'' =>
            intro i s
            rw [leafMapS.goList, pureMap.go, leavesP.go, List.foldl_append,
              ihs t (List.mem_cons_self t ts'') (p ++ [i]) s]
            have hrec := ih'' (fun x hx => ihs x (List.mem_cons_of_mem t hx))
            simp [hrec (i + 1)]
      rw [leafMapS, leavesP, pureMap, hgo ts ih 0 s]

/-- The leaf capability contract (§6): what the engine requires of a mounted
content-leaf `Renderer` instance reached through a cell's back-reference.
The leaf renderers are external collaborators, so each capability is an
opaque field.  `restoreSync` schedules whether the leaf's
`restoreSerializedState` invokes its completion callback synchronously
during its own dispatch or at a later tick. -/
structure LeafInst (Q W G S U : Type) : Type where
  findInternalWidgets : Q → List W
  guessAndScore : G × S
  score : S
  getUserInput : G
  getSerializedState : U
  restoreSync : Bool

/-- A renderer cell (`ContentRendererData` / `HintRendererData`, lines
62-71 of multi-renderer.jsx).  The source types pin a hint cell's `ref`
field to `null`, and only content cells are handed a ref-setter, so only
content cells carry a back-reference slot.  `id` models JavaScript object
identity: each constructed cell is a fresh object. -/
inductive RendererData (C H Q W G S U : Type) : Type where
  | contentData (id : Nat) (content : C)
      (ref : Option (LeafInst Q W G S U))
  | hintData (id : Nat) (hint : H)

/-- The cell's back-reference: `data.ref` reads `null` on a hint cell. -/
def RendererData.ref {C H Q W G S U : Type} :
    RendererData C H Q W G S U → Option (LeafInst Q W G S U)
  | .contentData _ _ r => r
  | .hintData _ _ => none

/-- The cell's identity. -/
def RendererData.id {C H Q W G S U : Type} :
    RendererData C H Q W G S U → Nat
  | .contentData i _ _ => i
  | .hintData i _ => i

/-- `data.hint`: present on hint cells, `undefined` on content cells. -/
def RendererData.hintOrNull {C H Q W G S U : Type} :
    RendererData C H Q W G S U → Option H
  | .contentData _ _ _ => none
  | .hintData _ h => some h

/-- A constructed renderer element: a content `Renderer` (determined by its
content payload plus the constant delegated props) or a `HintsRenderer`
over a list of hints with an optional `hintsVisible` count. -/
inductive RendererElement (C H : Type) : Type where
  | renderer (content : C)
  | hintsRenderer (hints : List (Option H)) (hintsVisible : Option Nat)

/-- The `renderer` element stored in a cell: `_makeContentRendererData`
stores a `Renderer` built from the content payload (lines 170-177);
`_makeHintRendererData` stores a `HintsRenderer` over the one hint with no
visibility bound (lines 189-193). -/
def RendererData.rendererElem {C H Q W G S U : Type} :
    RendererData C H Q W G S U → RendererElement C H
  | .contentData _ c _ => .renderer c
  | .hintData _ h => .hintsRenderer [some h] none

/-- `_makeContentRendererData` (lines 161-179): a fresh cell whose
back-reference starts null; the element closes over a setter for precisely
this cell.  Allocation of the fresh object advances the id counter. -/
def makeContentRendererData {C H Q W G S U : Type} (c : C) (n : Nat) :
    RendererData C H Q W G S U × Nat :=
  (.contentData n c none, n + 1)

/-- `_makeHintRendererData` (lines 185-194): a fresh cell for the hint; the
ref is left null forever (no setter is created for it). -/
def makeHintRendererData {C H Q W G S U : Type} (h : H) (n : Nat) :
    RendererData C H Q W G S U × Nat :=
  (.hintData n h, n + 1)

/-- `_makeRendererDataTree` (lines 201-213): `itemToTree` then the mapper
with the two cell constructors at content/hint leaves and null at tags
leaves.  (`itemToTree` of items.js is not among the reviewed sources;
modelled from the spec: the item is already a tree-shaped value of the same
topology as the shape, so the conversion is the identity.) -/
def makeRendererDataTree {C H T Q W G S U : Type}
    (item : PTree C H T) (shape : Shape) (n : Nat) :
    Except String (PTree (RendererData C H Q W G S U)
      (RendererData C H Q W G S U) Unit × Nat) :=
  mapTree (fun c _ n => makeContentRendererData c n)
    (fun h _ n => makeHintRendererData h n)
    (fun _ _ n => ((), n))
    none item shape [] n

/-- The component state (lines 82-89): the cached renderer data tree, or
the error thrown while traversing the item. -/
structure MRState (C H Q W G S U : Type) : Type where
  rendererDataTree : Option (PTree (RendererData C H Q W G S U)
    (RendererData C H Q W G S U) Unit)
  renderError : Option String

/-- The component props (lines 77-81); `itemId` models the JavaScript
reference identity of the item value (two deeply equal items may be
distinct objects and then have distinct ids). -/
structure Props (C H T : Type) : Type where
  itemId : Nat
  item : PTree C H T
  shape : Shape

/-- `_tryMakeRendererState` (lines 117-135): build the renderer data tree;
on success the state holds the tree and a null error, and on a thrown error
the state holds a null tree and that error, which is also logged via
`console.error` — never rethrown.  Returns the state, the log entries
emitted, and the advanced allocation counter. -/
def tryMakeRendererState {C H T Q W G S U : Type}
    (props : Props C H T) (n : Nat) :
    MRState C H Q W G S U × List String × Nat :=
  match makeRendererDataTree props.item props.shape n with
  | .ok (t, n') => (⟨some t, none⟩, [], n')
  | .error e => (⟨none, some e⟩, [e], n)

/-- A component instance: current props, current state, and the allocation
counter modelling fresh-object identity. -/
structure Component (C H T Q W G S U : Type) : Type where
  props : Props C H T
  state : MRState C H Q W G S U
  nextId : Nat

/-- The constructor (lines 98-103): state is computed eagerly from the
initial props. -/
def initComponent {C H T Q W G S U : Type} (props : Props C H T) :
    Component C H T Q W G S U :=
  let r := tryMakeRendererState props 0
  ⟨props, r.1, r.2.2⟩

/-- `componentWillReceiveProps` (lines 105-110): rebuild the cached state if
and only if the incoming item is not reference-equal to the current one;
React installs the new props either way. -/
def receiveProps {C H T Q W G S U : Type}
    (comp : Component C H T Q W G S U) (next : Props C H T) :
    Component C H T Q W G S U :=
  if next.itemId ≠ comp.props.itemId then
    let r := tryMakeRendererState next comp.nextId
    ⟨next, r.1, r.2.2⟩
  else
    ⟨next, comp.state, comp.nextId⟩

/-- The ref callback `ref={e => data.ref = e}` (line 174): React invokes it
with the mounted instance (or null on unmount) for the one content cell it
was created for, addressed here by the cell's position; hint cells have no
setter and are left untouched. -/
def setRefAt {C H Q W G S U : Type} :
    PTree (RendererData C H Q W G S U)
      (RendererData C H Q W G S U) Unit →
    Path → Option (LeafInst Q W G S U) →
    PTree (RendererData C H Q W G S U)
      (RendererData C H Q W G S U) Unit
  | .content (.contentData i c _), [], r => .content (.contentData i c r)
  | .arr ts, k :: p, r => .arr (go ts k p r)
  | t, _, _ => t
where
  go : List (PTree (RendererData C H Q W G S U)
      (RendererData C H Q W G S U) Unit) →
    Nat → Path → Option (LeafInst Q W G S U) →
    List (PTree (RendererData C H Q W G S U)
      (RendererData C H Q W G S U) Unit)
    | [], _, _, _ => []
    | t :: ts, 0, p, r => setRefAt t p r :: ts
    | t :: ts, k + 1, p, r => t :: go ts k p r

/-- A sequence of back-reference updates (mounts and unmounts) applied to
the cached tree over its lifetime. -/
def applyMounts {C H Q W G S U : Type}
    (ms : List (Path × Option (LeafInst Q W G S U)))
    (t : PTree (RendererData C H Q W G S U)
      (RendererData C H Q W G S U) Unit) :
    PTree (RendererData C H Q W G S U)
      (RendererData C H Q W G S U) Unit :=
  ms.foldl (fun t m => setRefAt t m.1 m.2) t

/-- `_mapRenderers` (lines 248-266): null when there is no cached tree,
otherwise the mapper over the cached tree and the current shape with the
one supplied leaf transform installed at both content and hint leaves (no
tags transform is installed, so the null tags payloads pass through
unchanged).  Each engine closure's return value is independent of the
engine locals it mutates, so the closure is passed split into its output
part `leafOut` and its state part `leafSt`. -/
def mapRenderers {C H Q W G S U O σ : Type}
    (st : MRState C H Q W G S U) (shape : Shape)
    (leafOut : RendererData C H Q W G S U → Path → O)
    (leafSt : RendererData C H Q W G S U → Path → σ → σ)
    (am : Option (List (PTree O O Unit) →
      List (PTree (RendererData C H Q W G S U)
        (RendererData C H Q W G S U) Unit) →
      Shape → Path → σ → List (PTree O O Unit) × σ))
    (s0 : σ) : Option (Except String (PTree O O Unit × σ)) :=
  match st.rendererDataTree with
  | none => none
  | some t =>
      some (mapTree (splitMapper leafOut leafSt) (splitMapper leafOut leafSt)
        (splitMapper (fun t _ => t) (fun _ _ s => s)) am t shape [] s0)

/-- `_findWidgets` (lines 223-236): walk the full cached tree, collecting
each cell's `findInternalWidgets` result, except for the calling cell and
cells whose back-reference is null.  With no cached tree the traversal is
skipped and the accumulator stays empty; a tree/shape mismatch thrown by
the mapper propagates. -/
def findWidgets {C H Q W G S U : Type}
    (st : MRState C H Q W G S U) (shape : Shape) (callingId : Nat)
    (crit : Q) : Except String (List W) :=
  match mapRenderers st shape (fun _ _ => ())
      (fun d _ acc =>
        if d.id ≠ callingId then
          match d.ref with
          | some r => acc ++ r.findInternalWidgets crit
          | none => acc
        else acc)
      none ([] : List W) with
  | none => .ok []
  | some (.error e) => .error e
  | some (.ok (_, acc)) => .ok acc

/-- `_scoreFromRef` (lines 268-275): null for a null ref, else the ref's
`guessAndScore` pair combined through `Util.keScoreFromPerseusScore`
(external to the engine, passed in as `keScore`). -/
def scoreFromRef {Q W G S U K : Type} (keScore : S → G → K) :
    Option (LeafInst Q W G S U) → Option K
  | none => none
  | some r => some (keScore r.guessAndScore.2 r.guessAndScore.1)

/-- `getScores` (lines 281-283): the tree shaped like the multi-item with
`_scoreFromRef` of each cell's back-reference at the leaves. -/
def getScores {C H Q W G S U K : Type} (keScore : S → G → K)
    (st : MRState C H Q W G S U) (shape : Shape) :
    Except String (Option (PTree (Option K) (Option K) Unit)) :=
  match mapRenderers st shape (fun d _ => scoreFromRef keScore d.ref)
      (fun _ _ s => s) none () with
  | none => .ok none
  | some (.error e) => .error e
  | some (.ok (t, _)) => .ok (some t)

/-- `Array.prototype.reduce` with no initial value: JavaScript throws a
TypeError on an empty array, otherwise folds from the first element. -/
def jsReduce {α : Type} (f : α → α → α) : List α → Except String α
  | [] => .error "TypeError: Reduce of empty array with no initial value"
  | x :: xs => .ok (xs.foldl f x)

/-- `score` (lines 290-304): push each mounted leaf's own score while
building the guess tree (null at unmounted and non-content leaves), fold
the pushed scores through `Util.combineScores` via `reduce` *without an
initial value*, and convert the result with `Util.keScoreFromPerseusScore`
applied to the composite score and the guess tree.  The two `Util`
functions are external and passed in. -/
def scoreOp {C H Q W G S U K : Type}
    (keScoreAgg : S → Option (PTree (Option G) (Option G) Unit) → K)
    (combine : S → S → S) (st : MRState C H Q W G S U)
    (shape : Shape) : Except String K :=
  match mapRenderers st shape
      (fun d _ => d.ref.map (fun r => r.getUserInput))
      (fun d _ scores =>
        match d.ref with
        | some r => scores ++ [r.score]
        | none => scores)
      none ([] : List S) with
  | none => (jsReduce combine []).map (fun c => keScoreAgg c none)
  | some (.error e) => .error e
  | some (.ok (gt, scores)) =>
      (jsReduce combine scores).map (fun c => keScoreAgg c (some gt))

/-- `getSerializedState` (lines 310-318): the tree shaped like the
multi-item with each mounted cell's serialized state at its leaf and null
at unmounted and non-content leaves. -/
def getSerializedStateOp {C H Q W G S U : Type}
    (st : MRState C H Q W G S U) (shape : Shape) :
    Except String (Option (PTree (Option U) (Option U) Unit)) :=
  match mapRenderers st shape
      (fun d _ => d.ref.map (fun r => r.getSerializedState))
      (fun _ _ s => s) none () with
  | none => .ok none
  | some (.error e) => .error e
  | some (.ok (t, _)) => .ok (some t)

/-- A plain nested serialized-state structure, addressed by paths. -/
inductive Blob (A : Type) : Type where
  | val : Option A → Blob A
  | arr : List (Blob A) → Blob A

/-- Modelled from the spec: the `hubble` lens accessor is not among the
reviewed sources; §4.3: `get(structure, path)` navigates array indices in a
plain nested structure and returns "absent" rather than failing on missing
intermediate structure.  Absent and null results are JS-falsy; payloads of
type `A` stored in a blob are taken from the truthy fragment, so the
engine's `if (!state)` test is modelled as `Option.isSome`.  The engine
only queries leaf positions, where a matching blob stores a value. -/
def blobGet {A : Type} : Blob A → Path → Option A
  | .val a, [] => a
  | .val _, _ :: _ => none
  | .arr _, [] => none
  | .arr xs, i :: p =>
      match xs.get? i with
      | some b => blobGet b p
      | none => none

/-- The mutable locals of one `restoreSerializedState` call: the
outstanding-callback counter, the number of times the caller-supplied
overall callback has been invoked, the dispatched (cell id, state) pairs in
dispatch order, and the number of leaves whose completion is still
outstanding. -/
structure RestoreSt (U : Type) : Type where
  numCallbacks : Int
  fires : Nat
  dispatched : List (Nat × U)
  pendingAsync : Nat
deriving Repr, DecidableEq

/-- The shared completion callback `countCallback` (lines 332-338):
decrement the counter and invoke the overall callback exactly when the
counter reads zero (the caller-supplied callback is taken truthy). -/
def countCallback {U : Type} (s : RestoreSt U) : RestoreSt U :=
  let n := s.numCallbacks - 1
  { s with
    numCallbacks := n,
    fires := if n = 0 then s.fires + 1 else s.fires }

/-- One leaf visit of `restoreSerializedState`'s traversal (lines 340-352):
skip cells with a null back-reference and cells with no (truthy) state at
their path; otherwise increment the counter, dispatch the leaf restoration,
and — if the leaf completes synchronously — run the shared callback during
the dispatch itself; an asynchronous leaf is recorded as pending. -/
def restoreStep {C H Q W G S U : Type} (blob : Blob U)
    (d : RendererData C H Q W G S U) (p : Path) (s : RestoreSt U) :
    RestoreSt U :=
  match d.ref with
  | none => s
  | some inst =>
      match blobGet blob p with
      | none => s
      | some stv =>
          let s1 := { s with
            numCallbacks := s.numCallbacks + 1,
            dispatched := s.dispatched ++ [(d.id, stv)] }
          if inst.restoreSync then countCallback s1
          else { s1 with pendingAsync := s1.pendingAsync + 1 }

/-- `restoreSerializedState` (lines 325-353): traverse the cached tree
dispatching a restoration to every mounted cell whose path has a (truthy)
value in the supplied state tree.  With no cached tree the locals are
returned untouched. -/
def restoreSerializedState {C H Q W G S U : Type}
    (st : MRState C H Q W G S U) (shape : Shape) (blob : Blob U) :
    Except String (RestoreSt U) :=
  match mapRenderers st shape (fun _ _ => ()) (restoreStep blob) none
      (⟨0, 0, [], 0⟩ : RestoreSt U) with
  | none => .ok ⟨0, 0, [], 0⟩
  | some (.error e) => .error e
  | some (.ok (_, s)) => .ok s

/-- The asynchronous completions arriving after the dispatch loop: each
pending leaf eventually runs the shared callback exactly once.  Every
completion performs the same decrement, so the outcome is independent of
arrival order and the batch is modelled as an iteration. -/
def completeAsync {U : Type} : Nat → RestoreSt U → RestoreSt U
  | 0, s => s
  | k + 1, s => completeAsync k (countCallback s)

/-- A JavaScript array that may carry a `firstN` method attached as an
extra property. -/
structure AnnotatedArray (R : Type) : Type where
  items : List R
  firstN : Option (Nat → R)

/-- `_annotateRendererArray` (lines 360-379): when the array shape's
element shape is the hint shape, return a copy of the renderers array with
a `firstN` capability attached that renders the first n of the same cells'
hint payloads in one `HintsRenderer`; arrays of any other element shape are
returned unchanged, with nothing attached. -/
def annotateRendererArray {C H Q W G S U : Type}
    (renderers : List (RendererElement C H))
    (rendererDatas : List (RendererData C H Q W G S U))
    (shape : Shape) : AnnotatedArray (RendererElement C H) :=
  match shape with
  | .arrayOf .hint =>
      { items := renderers,
        firstN := some (fun n => .hintsRenderer
          (rendererDatas.map RendererData.hintOrNull) (some n)) }
  | _ => { items := renderers, firstN := none }

/-- `_getRenderers` (lines 387-392): the tree of stored renderer elements.
The per-array `firstN` annotation does not fit inside the plain tree type,
so it is modelled separately by `annotateRendererArray` (which leaves every
array's members unchanged); the tree exposure itself installs no array
post-processing. -/
def getRenderers {C H Q W G S U : Type}
    (st : MRState C H Q W G S U) (shape : Shape) :
    Except String (Option (PTree (RendererElement C H)
      (RendererElement C H) Unit)) :=
  match mapRenderers st shape (fun d _ => d.rendererElem)
      (fun _ _ s => s) none () with
  | none => .ok none
  | some (.error e) => .error e
  | some (.ok (t, _)) => .ok (some t)

/-- What `render` produces: the visible error indicator, or the result of
the caller's composition function. -/
inductive RenderOutput (R : Type) : Type where
  | errorIndicator (message : String)
  | composed (result : R)

/-- `render` (lines 394-407): a truthy `renderError` renders the visible
error indicator carrying the error, in place of any content; otherwise the
renderer tree is passed to the `children` composition function. -/
def render {C H Q W G S U R : Type}
    (st : MRState C H Q W G S U) (shape : Shape)
    (children : Except String (Option (PTree (RendererElement C H)
      (RendererElement C H) Unit)) → R) : RenderOutput R :=
  match st.renderError with
  | some e => .errorIndicator e
  | none => .composed (children (getRenderers st shape))

/-- The cached tree of renderer cells. -/
abbrev DataTree (C H Q W G S U : Type) : Type :=
  PTree (RendererData C H Q W G S U)
    (RendererData C H Q W G S U) Unit

/-- The cell stored in a pre-order leaf entry (content and hint positions
of the cached tree both hold cells). -/
def leafCell {C H Q W G S U : Type}
    (lp : (RendererData C H Q W G S U ⊕
      RendererData C H Q W G S U) × Path) :
    RendererData C H Q W G S U :=
  Sum.elim id id lp.1

/-- Well-formedness of a cached tree against its shape: content positions
hold content cells and hint positions hold hint cells, as the constructors
installed by `_makeRendererDataTree` guarantee. -/
def wfB {C H Q W G S U : Type} :
    DataTree C H Q W G S U → Shape → Bool
  | .content (.contentData _ _ _), .content => true
  | .hint (.hintData _ _), .hint => true
  | .tags _, .tags => true
  | .arr ts, .arrayOf es => go ts es
  | _, _ => false
where
  go : List (DataTree C H Q W G S U) → Shape → Bool
    | [], _ => true
    | t :: ts, es => wfB t es && go ts es

/-- Every cell of the tree has a null back-reference (the state of a
freshly built tree, before any leaf mounts). -/
def allRefsNoneB {C H Q W G S U : Type} :
    DataTree C H Q W G S U → Bool
  | .content d => d.ref.isNone
  | .hint d => d.ref.isNone
  | .tags _ => true
  | .arr ts => go ts
where
  go : List (DataTree C H Q W G S U) → Bool
    | [] => true
    | t :: ts => allRefsNoneB t && go ts

/-- The spec's description of `findExternalWidgets` (§4.2): the
concatenation, in tree pre-order, of every leaf instance's own
`findInternalWidgets` result over the leaves whose back-reference is
non-null, excluding the calling cell's own leaf. -/
def findWidgetsSpec {C H Q W G S U : Type} (callingId : Nat)
    (crit : Q) (t : DataTree C H Q W G S U) : List W :=
  (leavesP t []).flatMap (fun lp =>
    if (leafCell lp).id ≠ callingId then
      match (leafCell lp).ref with
      | some r => r.findInternalWidgets crit
      | none => []
    else [])

/-- The contributions of content cells alone, in the same pre-order. -/
def contentWidgetsSpec {C H Q W G S U : Type} (callingId : Nat)
    (crit : Q) (t : DataTree C H Q W G S U) : List W :=
  (leavesP t []).flatMap (fun lp =>
    match lp.1 with
    | Sum.inl d =>
        if d.id ≠ callingId then
          match d.ref with
          | some r => r.findInternalWidgets crit
          | none => []
        else []
    | Sum.inr _ => [])

/-- The ids of the content cells of the tree, in pre-order. -/
def contentIds {C H Q W G S U : Type}
    (t : DataTree C H Q W G S U) : List Nat :=
  (leavesP t []).flatMap (fun lp =>
    match lp.1 with
    | Sum.inl d => [d.id]
    | Sum.inr _ => [])

/-- The spec's description of `getScores` (§4.2): a tree shaped like the
item in which a leaf cell with a null back-reference maps to null, and a
leaf cell with a non-null back-reference maps to that leaf's own score
combined with the guess extracted from the leaf. -/
def scoresSpec {C H Q W G S U K : Type} (keScore : S → G → K) :
    DataTree C H Q W G S U → PTree (Option K) (Option K) Unit
  | .content d => .content (scoreFromRef keScore d.ref)
  | .hint d => .hint (scoreFromRef keScore d.ref)
  | .tags _ => .tags ()
  | .arr ts => .arr (go ts)
where
  go : List (DataTree C H Q W G S U) →
      List (PTree (Option K) (Option K) Unit)
    | [] => []
    | t :: ts => scoresSpec keScore t :: go ts

/-- The spec's description of `getSerializedState` (§4.2): a per-leaf map,
null at unmounted leaves, the leaf's serialized state elsewhere. -/
def serializedSpec {C H Q W G S U : Type} :
    DataTree C H Q W G S U → PTree (Option U) (Option U) Unit
  | .content d => .content (d.ref.map (fun r => r.getSerializedState))
  | .hint d => .hint (d.ref.map (fun r => r.getSerializedState))
  | .tags _ => .tags ()
  | .arr ts => .arr (go ts)
where
  go : List (DataTree C H Q W G S U) →
      List (PTree (Option U) (Option U) Unit)
    | [] => []
    | t :: ts => serializedSpec t :: go ts

/-- The bare topology of a tree, with all payloads erased. -/
def topologyOf {C H T : Type} : PTree C H T → PTree Unit Unit Unit
  | .content _ => .content ()
  | .hint _ => .hint ()
  | .tags _ => .tags ()
  | .arr ts => .arr (go ts)
where
  go : List (PTree C H T) → List (PTree Unit Unit Unit)
    | [] => []
    | t :: ts => topologyOf t :: go ts

/-- Every hint-position value of a derived tree is null. -/
def hintLeavesNullB {A B : Type} : PTree (Option A) (Option B) Unit → Bool
  | .content _ => true
  | .hint v => v.isNone
  | .tags _ => true
  | .arr ts => go ts
where
  go : List (PTree (Option A) (Option B) Unit) → Bool
    | [] => true
    | t :: ts => hintLeavesNullB t && go ts

/-- Folding an append-accumulating step appends the flat-mapped
contributions. -/
theorem foldl_append_flatMap {α β : Type} (k : β → List α) :
    ∀ (l : List β) (acc : List α),
      l.foldl (fun acc x => acc ++ k x) acc = acc ++ l.flatMap k := by
  intro l
  induction l with
  | nil => intro acc; simp
  | cons x xs ih => intro acc; simp [ih, List.append_assoc]

/-- A fold whose every step is the identity returns its initial state. -/
theorem foldl_of_id {σ β : Type} (step : σ → β → σ) :
    ∀ l : List β, (∀ x ∈ l, ∀ s, step s x = s) → ∀ s, l.foldl step s = s := by
  intro l
  induction l with
  | nil => intro _ s; simp
  | cons x xs ih =>
      intro h s
      rw [List.foldl_cons, h x (List.mem_cons_self x xs)]
      exact ih (fun y hy s => h y (List.mem_cons_of_mem x hy) s) s

/-- Flat maps of pointwise-equal functions agree. -/
theorem flatMap_congr_mem {α β : Type} {l : List α} {f g : α → List β}
    (h : ∀ x ∈ l, f x = g x) : l.flatMap f = l.flatMap g := by
  induction l with
  | nil => rfl
  | cons x xs ih =>
      rw [List.flatMap_cons, List.flatMap_cons, h x (List.mem_cons_self x xs),
        ih (fun y hy => h y (List.mem_cons_of_mem x hy))]

/-- `splitStep` with the same update installed at content and hint leaves
acts through the leaf's cell. -/
theorem splitStep_same {C H Q W G S U σ : Type}
    (f : RendererData C H Q W G S U → Path → σ → σ) :
    splitStep f f = fun (s : σ) lp => f (leafCell lp) lp.2 s := by
  funext s lp
  rcases lp with ⟨c | h, p⟩ <;> rfl

/-- `_mapRenderers` on a present, shape-congruent tree: the output is the
pure per-leaf map and the final state folds the per-leaf updates over the
pre-order leaf list. -/
theorem mapRenderers_char {C H Q W G S U O σ : Type}
    (t : DataTree C H Q W G S U) (err : Option String) (sh : Shape)
    (hag : agreesB t sh = true)
    (leafOut : RendererData C H Q W G S U → Path → O)
    (leafSt : RendererData C H Q W G S U → Path → σ → σ) (s0 : σ) :
    mapRenderers ⟨some t, err⟩ sh leafOut leafSt none s0 =
      some (.ok (pureMap leafOut leafOut (fun u _ => u) t [],
        (leavesP t []).foldl (fun s lp => leafSt (leafCell lp) lp.2 s) s0)) := by
  unfold mapRenderers
  dsimp only
  rw [mapTree_eq_leafMapS _ _ _ t sh hag, leafMapS_split, splitStep_same]

/-- `_findWidgets` on a present, shape-congruent tree matches the spec's
description: the pre-order concatenation of the per-leaf results, excluding
the calling cell and unmounted cells. -/
theorem findWidgets_char {C H Q W G S U : Type}
    (t : DataTree C H Q W G S U) (err : Option String) (sh : Shape)
    (hag : agreesB t sh = true) (callingId : Nat) (crit : Q) :
    findWidgets ⟨some t, err⟩ sh callingId crit =
      .ok (findWidgetsSpec callingId crit t) := by
  unfold findWidgets
  rw [mapRenderers_char t err sh hag]
  have hstep :
      (fun (s : List W) lp =>
        (fun (d : RendererData C H Q W G S U) (_ : Path)
            (acc : List W) =>
          if d.id ≠ callingId then
            match d.ref with
            | some r => acc ++ r.findInternalWidgets crit
            | none => acc
          else acc) (leafCell lp) lp.2 s) =
      fun (s : List W) lp => s ++
        (if (leafCell lp).id ≠ callingId then
          match (leafCell lp).ref with
          | some r => r.findInternalWidgets crit
          | none => []
        else []) := by
    funext s lp
    by_cases hid : (leafCell lp).id ≠ callingId
    · cases href : (leafCell lp).ref <;> simp [hid, href]
    · simp [hid]
  rw [hstep, foldl_append_flatMap]
  rfl

/-- The stateless per-leaf map underlying `getScores` is the spec's score
tree. -/
theorem pureMap_scoresSpec {C H Q W G S U K : Type}
    (keScore : S → G → K) :
    ∀ (t : DataTree C H Q W G S U) (p : Path),
      pureMap (fun d _ => scoreFromRef keScore d.ref)
        (fun d _ => scoreFromRef keScore d.ref) (fun u _ => u) t p =
      scoresSpec keScore t := by
  intro t
  induction t using PTree.inductionOn with
  | hc d => intro p; rfl
  | hh d => intro p; rfl
  | ht u => intro p; rfl
  | ha ts ih =>
      intro p
      have hgo : ∀ (l : List (DataTree C H Q W G S U)),
          (∀ t ∈ l, ∀ p, pureMap (fun d _ => scoreFromRef keScore d.ref)
            (fun d _ => scoreFromRef keScore d.ref) (fun u _ => u) t p =
            scoresSpec keScore t) →
          ∀ (p : Path) (i : Nat),
            pureMap.go (fun d _ => scoreFromRef keScore d.ref)
              (fun d _ => scoreFromRef keScore d.ref) (fun u _ => u) l p i =
            scoresSpec.go keScore l := by
        intro l hl
        induction l with
        | nil => intro p i; rfl
        | cons t ts' ih' =>
            intro p i
            rw [pureMap.go, scoresSpec.go, hl t (List.mem_cons_self t ts'),
              ih' (fun u hu => hl u (List.mem_cons_of_mem t hu)) p (i + 1)]
      rw [pureMap, scoresSpec, hgo ts ih p 0]

/-- `getScores` on a present, shape-congruent tree returns the spec's
score tree. -/
theorem getScores_char {C H Q W G S U K : Type}
    (keScore : S → G → K) (t : DataTree C H Q W G S U)
    (err : Option String) (sh : Shape) (hag : agreesB t sh = true) :
    getScores keScore ⟨some t, err⟩ sh = .ok (some (scoresSpec keScore t)) := by
  unfold getScores
  rw [mapRenderers_char t err sh hag]
  dsimp only
  rw [pureMap_scoresSpec]

/-- The stateless per-leaf map underlying `getSerializedState` is the
spec's serialized-state tree. -/
theorem pureMap_serializedSpec {C H Q W G S U : Type} :
    ∀ (t : DataTree C H Q W G S U) (p : Path),
      pureMap (fun d _ => d.ref.map (fun r => r.getSerializedState))
        (fun d _ => d.ref.map (fun r => r.getSerializedState))
        (fun u _ => u) t p =
      serializedSpec t := by
  intro t
  induction t using PTree.inductionOn with
  | hc d => intro p; rfl
  | hh d => intro p; rfl
  | ht u => intro p; rfl
  | ha ts ih =>
      intro p
      have hgo : ∀ (l : List (DataTree C H Q W G S U)),
          (∀ t ∈ l, ∀ p, pureMap
            (fun d _ => d.ref.map (fun r => r.getSerializedState))
            (fun d _ => d.ref.map (fun r => r.getSerializedState))
            (fun u _ => u) t p = serializedSpec t) →
          ∀ (p : Path) (i : Nat),
            pureMap.go (fun d _ => d.ref.map (fun r => r.getSerializedState))
              (fun d _ => d.ref.map (fun r => r.getSerializedState))
              (fun u _ => u) l p i =
            serializedSpec.go l := by
        intro l hl
        induction l with
        | nil => intro p i; rfl
        | cons t ts' ih' =>
            intro p i
            rw [pureMap.go, serializedSpec.go, hl t (List.mem_cons_self t ts'),
              ih' (fun u hu => hl u (List.mem_cons_of_mem t hu)) p (i + 1)]
      rw [pureMap, serializedSpec, hgo ts ih p 0]

/-- `getSerializedState` on a present, shape-congruent tree returns the
spec's serialized-state tree. -/
theorem getSerializedState_char {C H Q W G S U : Type}
    (t : DataTree C H Q W G S U) (err : Option String) (sh : Shape)
    (hag : agreesB t sh = true) :
    getSerializedStateOp ⟨some t, err⟩ sh = .ok (some (serializedSpec t)) := by
  unfold getSerializedStateOp
  rw [mapRenderers_char t err sh hag]
  dsimp only
  rw [pureMap_serializedSpec]

/-- `restoreSerializedState` on a present, shape-congruent tree folds the
per-leaf dispatch step over the pre-order leaf list. -/
theorem restore_char {C H Q W G S U : Type}
    (t : DataTree C H Q W G S U) (err : Option String) (sh : Shape)
    (blob : Blob U) (hag : agreesB t sh = true) :
    restoreSerializedState ⟨some t, err⟩ sh blob =
      .ok ((leavesP t []).foldl
        (fun s lp => restoreStep blob (leafCell lp) lp.2 s) ⟨0, 0, [], 0⟩) := by
  unfold restoreSerializedState
  rw [mapRenderers_char t err sh hag]

/-- The pure traversal underlying `_makeRendererDataTree`: the cell
constructors at content/hint leaves, null at tags leaves, threading the
allocation counter. -/
def buildCells {C H T Q W G S U : Type} (item : PTree C H T)
    (p : Path) (n : Nat) : DataTree C H Q W G S U × Nat :=
  leafMapS (fun c _ n => makeContentRendererData c n)
    (fun h _ n => makeHintRendererData h n)
    (fun _ _ n => ((), n)) item p n

/-- On a shape-congruent item, `_makeRendererDataTree` succeeds and builds
exactly the `buildCells` tree. -/
theorem makeRendererDataTree_char {C H T Q W G S U : Type}
    (item : PTree C H T) (sh : Shape) (n : Nat)
    (hag : agreesB item sh = true) :
    makeRendererDataTree (C := C) (H := H) (T := T) (Q := Q)
      (W := W) (G := G) (S := S) (U := U) item sh n =
      .ok (buildCells item [] n) := by
  unfold makeRendererDataTree buildCells
  rw [mapTree_eq_leafMapS _ _ _ item sh hag]

/-- A well-formed tree is in particular shape-congruent. -/
theorem agreesB_of_wfB {C H Q W G S U : Type} :
    ∀ (t : DataTree C H Q W G S U) (sh : Shape),
      wfB t sh = true → agreesB t sh = true := by
  intro t
  induction t using PTree.inductionOn with
  | hc d => intro sh hwf; cases sh <;> cases d <;> simp_all [wfB, agreesB]
  | hh d => intro sh hwf; cases sh <;> cases d <;> simp_all [wfB, agreesB]
  | ht u => intro sh hwf; cases sh <;> simp_all [wfB, agreesB]
  | ha ts ih =>
      intro sh hwf
      cases sh with
      | content => simp [wfB] at hwf
      | hint => simp [wfB] at hwf
      | tags => simp [wfB] at hwf
      | arrayOf es =>
          rw [agreesB]
          have hwf' : wfB.go ts es = true := by simpa [wfB] using hwf
          clear hwf
          induction ts with
          | nil => rfl
          | cons t ts' ih' =>
              rw [wfB.go, Bool.and_eq_true] at hwf'
              rw [agreesB.go, Bool.and_eq_true]
              exact ⟨ih t (List.mem_cons_self t ts') es hwf'.1,
                ih' (fun u hu => ih u (List.mem_cons_of_mem t hu)) hwf'.2⟩

/-- The freshly built cell tree is well-formed and every back-reference is
null. -/
theorem buildCells_wf_refsNone {C H T Q W G S U : Type} :
    ∀ (item : PTree C H T) (sh : Shape), agreesB item sh = true →
      ∀ (p : Path) (n : Nat),
        wfB ((buildCells (Q := Q) (W := W) (G := G) (S := S)
            (U := U) item p n).1) sh = true ∧
        allRefsNoneB ((buildCells (Q := Q) (W := W) (G := G) (S := S)
            (U := U) item p n).1) = true := by
  intro item
  induction item using PTree.inductionOn with
  | hc c =>
      intro sh hag p n
      cases sh <;> simp_all [agreesB, buildCells, leafMapS,
        makeContentRendererData, wfB, allRefsNoneB, RendererData.ref]
  | hh h =>
      intro sh hag p n
      cases sh <;> simp_all [agreesB, buildCells, leafMapS,
        makeHintRendererData, wfB, allRefsNoneB, RendererData.ref]
  | ht u =>
      intro sh hag p n
      cases sh <;> simp_all [agreesB, buildCells, leafMapS, wfB, allRefsNoneB]
  | ha ts ih =>
      intro sh hag p n
      cases sh with
      | content => simp [agreesB] at hag
      | hint => simp [agreesB] at hag
      | tags => simp [agreesB] at hag
      | arrayOf es =>
          have hags : agreesB.go ts es = true := by simpa [agreesB] using hag
          have hgo : ∀ (l : List (PTree C H T)), agreesB.go l es = true →
              (∀ t ∈ l, ∀ sh, agreesB t sh = true → ∀ p n,
                wfB ((buildCells (Q := Q) (W := W) (G := G) (S := S)
                  (U := U) t p n).1) sh = true ∧
                allRefsNoneB ((buildCells (Q := Q) (W := W) (G := G)
                  (S := S) (U := U) t p n).1) = true) →
              ∀ (p : Path) (i : Nat) (n : Nat),
                wfB.go ((leafMapS.goList
                  (fun c (_ : Path) n =>
                    (makeContentRendererData c n : RendererData C H Q W G S U × Nat))
                  (fun h (_ : Path) n => makeHintRendererData h n)
                  (fun (_ : T) (_ : Path) n => (((), n) : Unit × Nat)) l p i n).1)
                  es = true ∧
                allRefsNoneB.go ((leafMapS.goList
                  (fun c (_ : Path) n =>
                    (makeContentRendererData c n : RendererData C H Q W G S U × Nat))
                  (fun h (_ : Path) n => makeHintRendererData h n)
                  (fun (_ : T) (_ : Path) n => (((), n) : Unit × Nat)) l p i n).1)
                  = true := by
            intro l hagl ihs
            induction l with
            | nil => intro p i n; simp [leafMapS.goList, wfB.go, allRefsNoneB.go]
            | cons t ts' ih' =>
                intro p i n
                rw [agreesB.go, Bool.and_eq_true] at hagl
                have hhead := ihs t (List.mem_cons_self t ts') es hagl.1
                  (p ++ [i]) n
                have htail := ih' hagl.2
                  (fun u hu => ihs u (List.mem_cons_of_mem t hu)) p (i + 1)
                rw [leafMapS.goList]
                dsimp only
                rw [wfB.go, allRefsNoneB.go, Bool.and_eq_true, Bool.and_eq_true]
                refine ⟨⟨?_, ?_⟩, ?_, ?_⟩
                · exact hhead.1
                · exact (htail _).1
                · exact hhead.2
                · exact (htail _).2
          have := hgo ts hags ih p 0 n
          refine ⟨?_, ?_⟩
          · rw [buildCells, leafMapS]
            dsimp only
            rw [wfB]
            exact (this).1
          · rw [buildCells, leafMapS]
            dsimp only
            rw [allRefsNoneB]
            exact (this).2

/-- A back-reference update (mount or unmount) preserves well-formedness:
it only replaces a content cell's ref slot and never changes the tree's
topology or any cell's variant. -/
theorem wfB_setRefAt {C H Q W G S U : Type} :
    ∀ (t : DataTree C H Q W G S U) (sh : Shape), wfB t sh = true →
      ∀ (p : Path) (r : Option (LeafInst Q W G S U)),
        wfB (setRefAt t p r) sh = true := by
  intro t
  induction t using PTree.inductionOn with
  | hc d =>
      intro sh hwf p r
      cases sh <;> cases d <;> cases p <;> simp_all [wfB, setRefAt]
  | hh d =>
      intro sh hwf p r
      cases sh <;> cases d <;> cases p <;> simp_all [wfB, setRefAt]
  | ht u =>
      intro sh hwf p r
      cases sh <;> cases p <;> simp_all [wfB, setRefAt]
  | ha ts ih =>
      intro sh hwf p r
      cases sh with
      | content => simp [wfB] at hwf
      | hint => simp [wfB] at hwf
      | tags => simp [wfB] at hwf
      | arrayOf es =>
          have hwf' : wfB.go ts es = true := by simpa [wfB] using hwf
          cases p with
          | nil => simpa [setRefAt, wfB] using hwf'
          | cons k p' =>
              rw [setRefAt, wfB]
              have hgo : ∀ (l : List (DataTree C H Q W G S U)),
                  wfB.go l es = true →
                  (∀ t ∈ l, ∀ sh, wfB t sh = true → ∀ p r,
                    wfB (setRefAt t p r) sh = true) →
                  ∀ (k : Nat), wfB.go (setRefAt.go l k p' r) es = true := by
                intro l hl ihs
                induction l with
                | nil => intro k; simpa [setRefAt.go] using hl
                | cons t ts' ih' =>
                    intro k
                    rw [wfB.go, Bool.and_eq_true] at hl
                    cases k with
                    | zero =>
                        rw [setRefAt.go, wfB.go, Bool.and_eq_true]
                        exact ⟨ihs t (List.mem_cons_self t ts') es hl.1 p' r,
                          hl.2⟩
                    | succ k' =>
                        rw [setRefAt.go, wfB.go, Bool.and_eq_true]
                        exact ⟨hl.1, ih' hl.2
                          (fun u hu => ihs u (List.mem_cons_of_mem t hu)) k'⟩
              exact hgo ts hwf' ih k

/-- Any sequence of back-reference updates preserves well-formedness. -/
theorem wfB_applyMounts {C H Q W G S U : Type}
    (ms : List (Path × Option (LeafInst Q W G S U))) :
    ∀ (t : DataTree C H Q W G S U) (sh : Shape), wfB t sh = true →
      wfB (applyMounts ms t) sh = true := by
  induction ms with
  | nil => intro t sh hwf; simpa [applyMounts]
  | cons m ms' ih =>
      intro t sh hwf
      have := wfB_setRefAt t sh hwf m.1 m.2
      simpa [applyMounts] using ih (setRefAt t m.1 m.2) sh this

/-- In a well-formed tree, every hint-position leaf entry holds a cell
whose back-reference is null (it is a hint cell, and hint cells have no
setter, so their ref reads null). -/
theorem wfB_hint_leaves {C H Q W G S U : Type} :
    ∀ (t : DataTree C H Q W G S U) (sh : Shape), wfB t sh = true →
      ∀ (p : Path), ∀ lp ∈ leavesP t p,
        ∀ d, lp.1 = Sum.inr d → RendererData.ref d = none := by
  intro t
  induction t using PTree.inductionOn with
  | hc d =>
      intro sh hwf p lp hlp d' hd'
      simp [leavesP] at hlp
      rw [hlp] at hd'
      simp at hd'
  | hh d =>
      intro sh hwf p lp hlp d' hd'
      cases sh <;> cases d <;> simp_all [wfB, leavesP]
      subst hd'
      rfl
  | ht u =>
      intro sh hwf p lp hlp
      simp [leavesP] at hlp
  | ha ts ih =>
      intro sh hwf p lp hlp d' hd'
      cases sh with
      | content => simp [wfB] at hwf
      | hint => simp [wfB] at hwf
      | tags => simp [wfB] at hwf
      | arrayOf es =>
          have hwf' : wfB.go ts es = true := by simpa [wfB] using hwf
          rw [leavesP] at hlp
          have hgo : ∀ (l : List (DataTree C H Q W G S U)),
              wfB.go l es = true →
              (∀ t ∈ l, ∀ sh, wfB t sh = true → ∀ p, ∀ lp ∈ leavesP t p,
                ∀ d, lp.1 = Sum.inr d → RendererData.ref d = none) →
              ∀ (p : Path) (i : Nat), lp ∈ leavesP.go l p i →
                RendererData.ref d' = none := by
            intro l hl ihs
            induction l with
            | nil => intro p i h; simp [leavesP.go] at h
            | cons t ts' ih' =>
                intro p i h
                rw [wfB.go, Bool.and_eq_true] at hl
                rw [leavesP.go] at h
                rcases List.mem_append.mp h with h | h
                · exact ihs t (List.mem_cons_self t ts') es hl.1 (p ++ [i])
                    lp h d' hd'
                · exact ih' hl.2
                    (fun u hu => ihs u (List.mem_cons_of_mem t hu)) p (i + 1) h
          exact hgo ts hwf' ih p 0 hlp

/-- The dispatched list of the restore fold: the pre-order contributions of
the leaves, one dispatch for each mounted cell whose path has a value. -/
theorem restore_fold_dispatched {C H Q W G S U : Type} (blob : Blob U) :
    ∀ (l : List ((RendererData C H Q W G S U ⊕
        RendererData C H Q W G S U) × Path)) (s0 : RestoreSt U),
      (l.foldl (fun s lp => restoreStep blob (leafCell lp) lp.2 s)
        s0).dispatched =
      s0.dispatched ++ l.flatMap (fun lp =>
        match (leafCell lp).ref, blobGet blob lp.2 with
        | some _, some v => [((leafCell lp).id, v)]
        | _, _ => []) := by
  intro l
  induction l with
  | nil => intro s0; simp
  | cons x xs ih =>
      intro s0
      rw [List.foldl_cons, ih, List.flatMap_cons]
      have hstep : (restoreStep blob (leafCell x) x.2 s0).dispatched =
          s0.dispatched ++
            (match (leafCell x).ref, blobGet blob x.2 with
              | some _, some v => [((leafCell x).id, v)]
              | _, _ => []) := by
        unfold restoreStep
        cases href : (leafCell x).ref with
        | none => simp
        | some inst =>
            cases hblob : blobGet blob x.2 with
            | none => simp
            | some v =>
                cases hsync : inst.restoreSync <;>
                  simp [countCallback, hsync]
      rw [hstep, List.append_assoc]

/-- On a well-formed tree the spec score tree is null at every hint
position (hint cells have a null back-reference). -/
theorem scoresSpec_hintLeavesNull {C H Q W G S U K : Type}
    (keScore : S → G → K) :
    ∀ (t : DataTree C H Q W G S U) (sh : Shape), wfB t sh = true →
      hintLeavesNullB (scoresSpec keScore t) = true := by
  intro t
  induction t using PTree.inductionOn with
  | hc d => intro sh hwf; simp [scoresSpec, hintLeavesNullB]
  | hh d =>
      intro sh hwf
      cases sh <;> cases d <;> simp_all [wfB, scoresSpec, hintLeavesNullB,
        scoreFromRef, RendererData.ref]
  | ht u => intro sh hwf; simp [scoresSpec, hintLeavesNullB]
  | ha ts ih =>
      intro sh hwf
      cases sh with
      | content => simp [wfB] at hwf
      | hint => simp [wfB] at hwf
      | tags => simp [wfB] at hwf
      | arrayOf es =>
          have hwf' : wfB.go ts es = true := by simpa [wfB] using hwf
          rw [scoresSpec, hintLeavesNullB]
          have hgo : ∀ (l : List (DataTree C H Q W G S U)),
              wfB.go l es = true →
              (∀ t ∈ l, ∀ sh, wfB t sh = true →
                hintLeavesNullB (scoresSpec keScore t) = true) →
              hintLeavesNullB.go (scoresSpec.go keScore l) = true := by
            intro l hl ihs
            induction l with
            | nil => rfl
            | cons t ts' ih' =>
                rw [wfB.go, Bool.and_eq_true] at hl
                rw [scoresSpec.go, hintLeavesNullB.go, Bool.and_eq_true]
                exact ⟨ihs t (List.mem_cons_self t ts') es hl.1,
                  ih' hl.2 (fun u hu => ihs u (List.mem_cons_of_mem t hu))⟩
          exact hgo ts hwf' ih

/-- On a well-formed tree the spec serialized-state tree is null at every
hint position. -/
theorem serializedSpec_hintLeavesNull {C H Q W G S U : Type} :
    ∀ (t : DataTree C H Q W G S U) (sh : Shape), wfB t sh = true →
      hintLeavesNullB (serializedSpec t) = true := by
  intro t
  induction t using PTree.inductionOn with
  | hc d => intro sh hwf; simp [serializedSpec, hintLeavesNullB]
  | hh d =>
      intro sh hwf
      cases sh <;> cases d <;> simp_all [wfB, serializedSpec, hintLeavesNullB,
        RendererData.ref]
  | ht u => intro sh hwf; simp [serializedSpec, hintLeavesNullB]
  | ha ts ih =>
      intro sh hwf
      cases sh with
      | content => simp [wfB] at hwf
      | hint => simp [wfB] at hwf
      | tags => simp [wfB] at hwf
      | arrayOf es =>
          have hwf' : wfB.go ts es = true := by simpa [wfB] using hwf
          rw [serializedSpec, hintLeavesNullB]
          have hgo : ∀ (l : List (DataTree C H Q W G S U)),
              wfB.go l es = true →
              (∀ t ∈ l, ∀ sh, wfB t sh = true →
                hintLeavesNullB (serializedSpec t) = true) →
              hintLeavesNullB.go (serializedSpec.go l) = true := by
            intro l hl ihs
            induction l with
            | nil => rfl
            | cons t ts' ih' =>
                rw [wfB.go, Bool.and_eq_true] at hl
                rw [serializedSpec.go, hintLeavesNullB.go, Bool.and_eq_true]
                exact ⟨ihs t (List.mem_cons_self t ts') es hl.1,
                  ih' hl.2 (fun u hu => ihs u (List.mem_cons_of_mem t hu))⟩
          exact hgo ts hwf' ih

/-- The spec score tree has exactly the topology of the cell tree. -/
theorem scoresSpec_topology {C H Q W G S U K : Type} (keScore : S → G → K) :
    ∀ (t : DataTree C H Q W G S U),
      topologyOf (scoresSpec keScore t) = topologyOf t := by
  intro t
  induction t using PTree.inductionOn with
  | hc d => rfl
  | hh d => rfl
  | ht u => rfl
  | ha ts ih =>
      rw [scoresSpec, topologyOf, topologyOf]
      have hgo : ∀ (l : List (DataTree C H Q W G S U)),
          (∀ t ∈ l, topologyOf (scoresSpec keScore t) = topologyOf t) →
          topologyOf.go (scoresSpec.go keScore l) = topologyOf.go l := by
        intro l ihs
        induction l with
        | nil => rfl
        | cons t ts' ih' =>
            rw [scoresSpec.go, topologyOf.go, topologyOf.go,
              ihs t (List.mem_cons_self t ts'),
              ih' (fun u hu => ihs u (List.mem_cons_of_mem t hu))]
      rw [hgo ts ih]

/-- Under well-formedness, the external-widget concatenation receives
contributions from content cells only: every hint cell has a null
back-reference and contributes nothing. -/
theorem findWidgetsSpec_content_only {C H Q W G S U : Type}
    (t : DataTree C H Q W G S U) (sh : Shape) (hwf : wfB t sh = true)
    (callingId : Nat) (crit : Q) :
    findWidgetsSpec (W := W) callingId crit t =
      contentWidgetsSpec callingId crit t := by
  unfold findWidgetsSpec contentWidgetsSpec
  apply flatMap_congr_mem
  intro lp hlp
  rcases hsum : lp.1 with d | d
  · simp [leafCell, hsum]
  · have hrefnone := wfB_hint_leaves t sh hwf [] lp hlp d hsum
    simp [leafCell, hsum, hrefnone]

/-- Exactly one of the two cached-state fields is non-null. -/
def exactlyOneNonNull {C H Q W G S U : Type} (st : MRState C H Q W G S U) :
    Prop :=
  (st.rendererDataTree ≠ none ∧ st.renderError = none) ∨
  (st.rendererDataTree = none ∧ st.renderError ≠ none)

/-- Every state `_tryMakeRendererState` constructs satisfies the
exactly-one invariant. -/
theorem tryMakeRendererState_exactlyOne {C H T Q W G S U : Type}
    (props : Props C H T) (n : Nat) :
    exactlyOneNonNull
      ((tryMakeRendererState (Q := Q) (W := W) (G := G) (S := S) (U := U)
        props n).1) := by
  unfold tryMakeRendererState
  cases h : makeRendererDataTree (Q := Q) (W := W) (G := G) (S := S)
      (U := U) props.item props.shape n with
  | ok r => simp [exactlyOneNonNull]
  | error e => simp [exactlyOneNonNull]

/-- Component states reachable in a lifetime: eagerly computed at
construction, then evolved only by `componentWillReceiveProps`. -/
inductive Reachable {C H T Q W G S U : Type} :
    Component C H T Q W G S U → Prop where
  | init : ∀ props, Reachable (initComponent props)
  | step : ∀ comp next, Reachable comp → Reachable (receiveProps comp next)

/-- Concrete leaf instances used in the witness evaluations below. -/
def sampleInst : LeafInst Nat Nat Nat Nat Nat :=
  ⟨fun _ => [10, 11], (7, 3), 4, 8, 9, true⟩

/-- A second instance, completing asynchronously. -/
def sampleInstB : LeafInst Nat Nat Nat Nat Nat :=
  ⟨fun _ => [20], (1, 2), 5, 6, 7, false⟩

/-- A leaf instance whose restoration completes synchronously during its
own dispatch. -/
def sampleSyncInst : LeafInst Nat Nat Nat Nat Nat :=
  ⟨fun _ => [], (0, 0), 0, 0, 0, true⟩

/-- C1: for every engine state in which the collected sequence of per-leaf
scores is empty — zero leaves with a non-null back-reference, or the
Errored state — the spec requires `score()` to return the identity score
(earned=0, total=0) and never throw.  The code instead calls
`scores.reduce(Util.combineScores)` with no initial value, which throws a
TypeError on the empty list: evaluated here at a cached tree whose only
content cell is unmounted, and at an Errored state. -/
theorem scoreThrowsOnEmptyScores :
    scoreOp (fun s _ => s) (fun a b => a + b)
      (⟨some (.arr [.content (.contentData 0 100 none)]), none⟩ :
        MRState Nat Nat Nat Nat Nat Nat Nat) (.arrayOf .content) =
      .error "TypeError: Reduce of empty array with no initial value" ∧
    scoreOp (fun s _ => s) (fun a b => a + b)
      (⟨none, some "ShapeMismatch"⟩ : MRState Nat Nat Nat Nat Nat Nat Nat)
      (.arrayOf .content) =
      .error "TypeError: Reduce of empty array with no initial value" :=
  ⟨rfl, rfl⟩

/-- C2: the spec requires the overall callback to fire exactly once, after
all N dispatched leaf restorations complete, even for leaves completing
synchronously during their own dispatch.  With two mounted leaves that both
complete synchronously, the counter returns to zero during the first
leaf's dispatch — before the second leaf is dispatched — so the overall
callback fires twice (`fires = 2`), the first time prematurely. -/
theorem restoreSyncCompletionDoubleFire :
    restoreSerializedState
      (⟨some (.arr [.content (.contentData 0 100 (some sampleSyncInst)),
                    .content (.contentData 1 101 (some sampleSyncInst))]),
        none⟩ : MRState Nat Nat Nat Nat Nat Nat Nat) (.arrayOf .content)
      (Blob.arr [Blob.val (some 7), Blob.val (some 8)]) =
      .ok ⟨0, 2, [(0, 7), (1, 8)], 0⟩ ∧ (2 : Nat) ≠ 1 :=
  ⟨rfl, by decide⟩

/-- C3: on any cached renderer-data tree (with at least two leaves),
`findExternalWidgets` returns the concatenation, in tree pre-order, of
`findInternalWidgets` over every leaf whose back-reference is non-null,
excluding the calling cell's leaf; and the calling cell's leaf contributes
nothing to that concatenation. -/
theorem findExternalWidgetsSpecAgree {C H Q W G S U : Type}
    (t : DataTree C H Q W G S U) (err : Option String) (sh : Shape)
    (hag : agreesB t sh = true) (_htwo : 2 ≤ (leavesP t []).length)
    (callingId : Nat) (crit : Q) :
    findWidgets (W := W) ⟨some t, err⟩ sh callingId crit =
      .ok (findWidgetsSpec callingId crit t) ∧
    ∀ lp ∈ leavesP t [], (leafCell lp).id = callingId →
      (if (leafCell lp).id ≠ callingId then
        match (leafCell lp).ref with
        | some r => r.findInternalWidgets crit
        | none => []
      else []) = ([] : List W) := by
  refine ⟨findWidgets_char t err sh hag callingId crit, ?_⟩
  intro lp _ hid
  simp [hid]

/-- A two-leaf cached tree: cell 0 mounted with `sampleInst`, cell 1
mounted with `sampleInstB`. -/
def sampleTwoLeafTree : DataTree Nat Nat Nat Nat Nat Nat Nat :=
  .arr [.content (.contentData 0 100 (some sampleInst)),
        .content (.contentData 1 101 (some sampleInstB))]

/-- C3 witness: with cell 0 calling, only cell 1's widgets ([20]) are
found. -/
theorem findExternalWidgetsSpecAgreeWitness :
    findWidgets ⟨some sampleTwoLeafTree, none⟩ (.arrayOf .content) 0 5 =
      .ok (findWidgetsSpec 0 5 sampleTwoLeafTree) ∧
    findWidgetsSpec 0 5 sampleTwoLeafTree = [20] :=
  ⟨(findExternalWidgetsSpecAgree sampleTwoLeafTree none (.arrayOf .content)
      rfl (by decide) 0 5).1, rfl⟩

/-- C4: the cached tree is rebuilt if and only if the incoming item is not
reference-equal to the current one.  A distinct reference — even one whose
value is deeply equal — triggers a full rebuild from the new props, whose
fresh tree has every back-reference reset to null (and is well-formed);
the same reference leaves the state, and so the cached tree, unchanged. -/
theorem rebuildIdentityGated {C H T Q W G S U : Type}
    (comp : Component C H T Q W G S U) (next : Props C H T) :
    (next.itemId ≠ comp.props.itemId →
      receiveProps comp next =
        ⟨next, (tryMakeRendererState (Q := Q) (W := W) (G := G) (S := S)
            (U := U) next comp.nextId).1,
          (tryMakeRendererState (Q := Q) (W := W) (G := G) (S := S)
            (U := U) next comp.nextId).2.2⟩ ∧
      (agreesB next.item next.shape = true →
        ∀ t', (receiveProps comp next).state.rendererDataTree = some t' →
          allRefsNoneB t' = true ∧ wfB t' next.shape = true)) ∧
    (next.itemId = comp.props.itemId →
      receiveProps comp next = ⟨next, comp.state, comp.nextId⟩) := by
  constructor
  · intro hne
    constructor
    · unfold receiveProps
      rw [if_pos hne]
    · intro hag t' ht'
      unfold receiveProps at ht'
      rw [if_pos hne] at ht'
      unfold tryMakeRendererState at ht'
      rw [makeRendererDataTree_char next.item next.shape comp.nextId hag]
        at ht'
      dsimp only at ht'
      have hb := buildCells_wf_refsNone (Q := Q) (W := W) (G := G) (S := S)
        (U := U) next.item next.shape hag [] comp.nextId
      cases ht'
      exact ⟨hb.2, hb.1⟩
  · intro heq
    unfold receiveProps
    rw [if_neg (by simp [heq])]

/-- Initial props: a single content item with reference identity 0. -/
def sampleProps : Props Nat Nat Nat := ⟨0, .content 42, .content⟩

/-- Deeply equal item value under a distinct reference identity. -/
def samplePropsB : Props Nat Nat Nat := ⟨1, .content 42, .content⟩

/-- A component constructed from the initial props. -/
def sampleComp : Component Nat Nat Nat Nat Nat Nat Nat Nat :=
  initComponent sampleProps

/-- C4 witness: the deep-equal/distinct-identity props rebuild the state;
the identical reference leaves the component state unchanged. -/
theorem rebuildIdentityGatedWitness :
    receiveProps sampleComp samplePropsB =
      ⟨samplePropsB, (tryMakeRendererState (Q := Nat) (W := Nat) (G := Nat)
          (S := Nat) (U := Nat) samplePropsB sampleComp.nextId).1,
        (tryMakeRendererState (Q := Nat) (W := Nat) (G := Nat) (S := Nat)
          (U := Nat) samplePropsB sampleComp.nextId).2.2⟩ ∧
    receiveProps sampleComp sampleProps =
      ⟨sampleProps, sampleComp.state, sampleComp.nextId⟩ :=
  ⟨((rebuildIdentityGated sampleComp samplePropsB).1 (by decide)).1,
    (rebuildIdentityGated sampleComp sampleProps).2 rfl⟩

/-- C5: when building the renderer tree throws, the rebuild does not
propagate the exception: the resulting state is Errored with exactly that
error captured as payload, one diagnostic log entry is emitted, and
rendering the Errored state produces the visible error indicator rather
than the content tree. -/
theorem rebuildErrorCapturedAndRendered {C H T Q W G S U R : Type}
    (props : Props C H T) (n : Nat) (e : String)
    (children : Except String (Option (PTree (RendererElement C H)
      (RendererElement C H) Unit)) → R)
    (hbuild : makeRendererDataTree (Q := Q) (W := W) (G := G) (S := S)
      (U := U) props.item props.shape n = .error e) :
    tryMakeRendererState props n =
      ((⟨none, some e⟩ : MRState C H Q W G S U), [e], n) ∧
    render (tryMakeRendererState (Q := Q) (W := W) (G := G) (S := S)
      (U := U) props n).1 props.shape children = .errorIndicator e := by
  have h1 : tryMakeRendererState props n =
      ((⟨none, some e⟩ : MRState C H Q W G S U), [e], n) := by
    unfold tryMakeRendererState
    rw [hbuild]
  refine ⟨h1, ?_⟩
  rw [h1]
  rfl

/-- Props whose item disagrees with its shape: a content leaf where the
shape expects a hint leaf. -/
def mismatchProps : Props Nat Nat Nat := ⟨0, .content 5, .hint⟩

/-- C5 witness: the topology mismatch is caught, logged, stored as the
Errored payload, and rendered as the error indicator. -/
theorem rebuildErrorCapturedAndRenderedWitness :
    tryMakeRendererState (Q := Nat) (W := Nat) (G := Nat) (S := Nat)
        (U := Nat) mismatchProps 0 =
      ((⟨none, some "ShapeMismatch"⟩ : MRState Nat Nat Nat Nat Nat Nat Nat),
        ["ShapeMismatch"], 0) ∧
    render (tryMakeRendererState (Q := Nat) (W := Nat) (G := Nat) (S := Nat)
        (U := Nat) mismatchProps 0).1 mismatchProps.shape
      (fun x => x) = .errorIndicator "ShapeMismatch" :=
  rebuildErrorCapturedAndRendered mismatchProps 0 "ShapeMismatch"
    (fun x => x) rfl

/-- C6: every reachable component state has exactly one of the two cached
fields non-null: either a tree and a null error, or a null tree and an
error — never both, never neither. -/
theorem cachedStateExactlyOneNonNull {C H T Q W G S U : Type}
    (comp : Component C H T Q W G S U) (h : Reachable comp) :
    exactlyOneNonNull comp.state := by
  induction h with
  | init props =>
      have := tryMakeRendererState_exactlyOne (Q := Q) (W := W) (G := G)
        (S := S) (U := U) props 0
      simpa [initComponent] using this
  | step comp next hr ih =>
      by_cases hid : next.itemId ≠ comp.props.itemId
      · have := tryMakeRendererState_exactlyOne (Q := Q) (W := W) (G := G)
          (S := S) (U := U) next comp.nextId
        simpa [receiveProps, hid] using this
      · simpa [receiveProps, hid] using ih

/-- C6 witness: the invariant at a concretely reachable state. -/
theorem cachedStateExactlyOneNonNullWitness :
    exactlyOneNonNull sampleComp.state :=
  cachedStateExactlyOneNonNull sampleComp (Reachable.init sampleProps)

/-- C7: `getScores` returns a tree with the item's topology in which every
leaf whose back-reference is null maps to null, and every mounted leaf maps
to its own score combined with the guess extracted from the leaf; every
non-content (hint) leaf position is null. -/
theorem getScoresSpecAgree {C H Q W G S U K : Type} (keScore : S → G → K)
    (t : DataTree C H Q W G S U) (err : Option String) (sh : Shape)
    (hwf : wfB t sh = true) :
    getScores keScore ⟨some t, err⟩ sh = .ok (some (scoresSpec keScore t)) ∧
    topologyOf (scoresSpec keScore t) = topologyOf t ∧
    hintLeavesNullB (scoresSpec keScore t) = true :=
  ⟨getScores_char keScore t err sh (agreesB_of_wfB t sh hwf),
    scoresSpec_topology keScore t,
    scoresSpec_hintLeavesNull keScore t sh hwf⟩

/-- A tree with one mounted and one unmounted content cell. -/
def sampleMixedTree : DataTree Nat Nat Nat Nat Nat Nat Nat :=
  .arr [.content (.contentData 0 100 (some sampleInst)),
        .content (.contentData 1 101 none)]

/-- C7 witness: the mounted leaf scores (keScore 3 7 = 37), the unmounted
leaf maps to null. -/
theorem getScoresSpecAgreeWitness :
    getScores (fun s g => 10 * s + g) ⟨some sampleMixedTree, none⟩
      (.arrayOf .content) =
      .ok (some (scoresSpec (fun s g => 10 * s + g) sampleMixedTree)) ∧
    scoresSpec (fun s g => 10 * s + g) sampleMixedTree =
      .arr [.content (some 37), .content none] :=
  ⟨(getScoresSpecAgree (fun s g => 10 * s + g) sampleMixedTree none
      (.arrayOf .content) rfl).1, rfl⟩

/-- C8: when exposing the renderer tree, an array receives the extra
`firstN` capability iff its element shape is the hint shape; the capability
is attached to a copy whose members are the unchanged mapped children and
renders the first n of the same cells' hint payloads; arrays of any other
element shape come back unchanged with nothing attached. -/
theorem annotateRendererArrayHintOnly {C H Q W G S U : Type}
    (rs : List (RendererElement C H))
    (rds : List (RendererData C H Q W G S U)) (es : Shape) :
    (annotateRendererArray rs rds (Shape.arrayOf es)).items = rs ∧
    ((annotateRendererArray rs rds (Shape.arrayOf es)).firstN.isSome = true ↔
      es = Shape.hint) ∧
    (es = Shape.hint →
      (annotateRendererArray rs rds (Shape.arrayOf es)).firstN =
        some (fun n => .hintsRenderer (rds.map RendererData.hintOrNull)
          (some n))) ∧
    (es ≠ Shape.hint →
      annotateRendererArray rs rds (Shape.arrayOf es) = ⟨rs, none⟩) := by
  cases es <;> simp [annotateRendererArray]

/-- Hint cells and their renderer elements for the annotation witness. -/
def sampleHintCells : List (RendererData Nat Nat Nat Nat Nat Nat Nat) :=
  [.hintData 0 1, .hintData 1 2]

/-- The mapped renderer elements of `sampleHintCells`. -/
def sampleHintRenderers : List (RendererElement Nat Nat) :=
  [.hintsRenderer [some 1] none, .hintsRenderer [some 2] none]

/-- C8 witness: a hint array gets the capability, a content array is
returned unchanged. -/
theorem annotateRendererArrayHintOnlyWitness :
    (annotateRendererArray sampleHintRenderers sampleHintCells
      (Shape.arrayOf .hint)).firstN.isSome = true ∧
    annotateRendererArray sampleHintRenderers sampleHintCells
      (Shape.arrayOf .content) = ⟨sampleHintRenderers, none⟩ :=
  ⟨((annotateRendererArrayHintOnly sampleHintRenderers sampleHintCells
      .hint).2.1).mpr rfl,
    (annotateRendererArrayHintOnly sampleHintRenderers sampleHintCells
      .content).2.2.2 (by decide)⟩

/-- C9: if a `restoreSerializedState` call dispatches zero per-leaf
restorations — no cached tree (Errored), no mounted leaf, or no truthy
state value at any mounted leaf's path — the caller-supplied overall
callback is never invoked: nothing is dispatched, nothing fires, and no
completion remains pending. -/
theorem restoreZeroDispatchNoCallback {C H Q W G S U : Type}
    (st : MRState C H Q W G S U) (sh : Shape) (blob : Blob U)
    (h : st.rendererDataTree = none ∨
      ∃ t, st.rendererDataTree = some t ∧ agreesB t sh = true ∧
        ∀ lp ∈ leavesP t [], (leafCell lp).ref.isSome = true →
          blobGet blob lp.2 = none) :
    ∃ r, restoreSerializedState st sh blob = .ok r ∧
      r.dispatched = [] ∧ r.fires = 0 ∧ r.pendingAsync = 0 ∧
      completeAsync r.pendingAsync r = r := by
  obtain ⟨tr, er⟩ := st
  rcases h with hnone | ⟨t, hsome, hag, hskip⟩
  · dsimp only at hnone
    subst hnone
    exact ⟨⟨0, 0, [], 0⟩, rfl, rfl, rfl, rfl, rfl⟩
  · dsimp only at hsome
    subst hsome
    rw [restore_char t er sh blob hag]
    have hid : ∀ lp ∈ leavesP t [], ∀ s,
        restoreStep blob (leafCell lp) lp.2 s = s := by
      intro lp hlp s
      cases href : (leafCell lp).ref with
      | none => simp [restoreStep, href]
      | some inst => simp [restoreStep, href, hskip lp hlp (by simp [href])]
    rw [foldl_of_id _ _ hid]
    exact ⟨⟨0, 0, [], 0⟩, rfl, rfl, rfl, rfl, rfl⟩

/-- A state whose single content cell is mounted, restored against a blob
with no value at its path. -/
def sampleUnrestoredState : MRState Nat Nat Nat Nat Nat Nat Nat :=
  ⟨some (.content (.contentData 0 100 (some sampleInst))), none⟩

/-- C9 witness: a mounted leaf with no state at its path dispatches
nothing and never fires the callback. -/
theorem restoreZeroDispatchNoCallbackWitness :
    ∃ r, restoreSerializedState sampleUnrestoredState .content
        (Blob.val none) = .ok r ∧
      r.dispatched = [] ∧ r.fires = 0 ∧ r.pendingAsync = 0 ∧
      completeAsync r.pendingAsync r = r :=
  restoreZeroDispatchNoCallback sampleUnrestoredState .content (Blob.val none)
    (Or.inr ⟨.content (.contentData 0 100 (some sampleInst)), rfl, rfl,
      by decide⟩)

/-- C10: cells built for hint leaves carry a null back-reference and keep
it through every sequence of back-reference updates; consequently hint
leaves contribute nothing to the external-widget search, map to null in
the score and serialized-state trees, and are never dispatched a
restoration. -/
theorem hintCellsInertForLifetime {C H T Q W G S U K : Type}
    (keScore : S → G → K) (item : PTree C H T) (sh : Shape) (n : Nat)
    (hag : agreesB item sh = true)
    (ms : List (Path × Option (LeafInst Q W G S U)))
    (t0 : DataTree C H Q W G S U) (n' : Nat)
    (hbuild : makeRendererDataTree item sh n = .ok (t0, n')) :
    wfB (applyMounts ms t0) sh = true ∧
    (∀ lp ∈ leavesP (applyMounts ms t0) [], ∀ d, lp.1 = Sum.inr d →
      RendererData.ref d = none) ∧
    (∀ (callingId : Nat) (crit : Q),
      findWidgetsSpec (W := W) callingId crit (applyMounts ms t0) =
        contentWidgetsSpec callingId crit (applyMounts ms t0)) ∧
    hintLeavesNullB (scoresSpec keScore (applyMounts ms t0)) = true ∧
    hintLeavesNullB (serializedSpec (U := U) (applyMounts ms t0)) = true ∧
    (∀ (blob : Blob U) (err : Option String) (r : RestoreSt U),
      restoreSerializedState ⟨some (applyMounts ms t0), err⟩ sh blob =
        .ok r →
      ∀ pr ∈ r.dispatched, pr.1 ∈ contentIds (applyMounts ms t0)) := by
  rw [makeRendererDataTree_char item sh n hag] at hbuild
  have ht0 : t0 = (buildCells (Q := Q) (W := W) (G := G) (S := S) (U := U)
      item [] n).1 := by
    injection hbuild with h2
    simp [h2]
  have hwf0 : wfB t0 sh = true := by
    rw [ht0]
    exact (buildCells_wf_refsNone item sh hag [] n).1
  have hwf : wfB (applyMounts ms t0) sh = true :=
    wfB_applyMounts ms t0 sh hwf0
  refine ⟨hwf, wfB_hint_leaves (applyMounts ms t0) sh hwf [], ?_, ?_, ?_, ?_⟩
  · intro callingId crit
    exact findWidgetsSpec_content_only (applyMounts ms t0) sh hwf
      callingId crit
  · exact scoresSpec_hintLeavesNull keScore (applyMounts ms t0) sh hwf
  · exact serializedSpec_hintLeavesNull (applyMounts ms t0) sh hwf
  · intro blob err r hr pr hpr
    rw [restore_char (applyMounts ms t0) err sh blob
      (agreesB_of_wfB _ sh hwf)] at hr
    have hr' : r = (leavesP (applyMounts ms t0) []).foldl
        (fun s lp => restoreStep blob (leafCell lp) lp.2 s) ⟨0, 0, [], 0⟩ := by
      cases hr
      rfl
    rw [hr', restore_fold_dispatched blob] at hpr
    simp only [List.nil_append] at hpr
    rcases List.mem_flatMap.mp hpr with ⟨lp, hlp, hmem⟩
    rcases hsum : lp.1 with d | d
    · have hcell : leafCell lp = d := by simp [leafCell, hsum]
      rw [hcell] at hmem
      cases href : d.ref with
      | none => rw [href] at hmem; simp at hmem
      | some inst =>
          cases hblob : blobGet blob lp.2 with
          | none => rw [href, hblob] at hmem; simp at hmem
          | some v =>
              rw [href, hblob] at hmem
              simp at hmem
              unfold contentIds
              apply List.mem_flatMap.mpr
              refine ⟨lp, hlp, ?_⟩
              rw [hsum]
              simp [hmem]
    · have hrefn := wfB_hint_leaves (applyMounts ms t0) sh hwf [] lp hlp d hsum
      have hcell : leafCell lp = d := by simp [leafCell, hsum]
      rw [hcell, hrefn] at hmem
      simp at hmem

/-- An item of two hint leaves. -/
def sampleHintItem : PTree Nat Nat Nat := .arr [.hint 1, .hint 2]

/-- An attempted back-reference update aimed at the first hint cell. -/
def sampleHintMounts : List (Path × Option (LeafInst Nat Nat Nat Nat Nat)) :=
  [([0], some sampleInst)]

/-- C10 witness: the hint-leaf tree stays well-formed (hint cells with
null refs) even after an attempted mount at a hint position. -/
theorem hintCellsInertForLifetimeWitness :
    wfB (applyMounts sampleHintMounts
      ((.arr [.hint (.hintData 0 1), .hint (.hintData 1 2)]) :
        DataTree Nat Nat Nat Nat Nat Nat Nat)) (Shape.arrayOf .hint) =
      true :=
  (hintCellsInertForLifetime (fun s _ => s) sampleHintItem
    (Shape.arrayOf .hint) 0 rfl sampleHintMounts
    ((.arr [.hint (.hintData 0 1), .hint (.hintData 1 2)]) :
      DataTree Nat Nat Nat Nat Nat Nat Nat) 2 rfl).1

end Perseus
